import Mathlib

/-!
Verification of the text-ingestion and normalization layer of
`spellchecker/utils.py` (pyspellchecker).

The Python module is shallowly embedded below:

* Python dynamic values passed to `ensure_unicode` become the inductive
  `PyValue` (bytes, str, list, tuple, set, dict, int, bool, None).
* `bytes.decode(encoding)` is modelled by `decodeBytes`; the UTF-8 codec is
  implemented in full (strict decoder `utf8DecodeAux`, encoder
  `utf8EncodeChar`); encodings other than UTF-8 are modelled as a codec
  lookup failure, since the repository and the claims only exercise UTF-8.
* the file system becomes a partial map `String → Option FileContent`;
  a plain file stores its raw bytes, a gzip file is modelled as a container
  around its decompressed payload bytes (the DEFLATE bit stream itself is
  not modelled, only the container/payload distinction the module relies
  on).  A text-mode `read()` (`newline=None`) decodes the bytes and then
  applies universal-newline translation (`univNewlines`); a text-mode
  write translates each `"\n"` to `os.linesep`, which is the identity on
  the POSIX systems modelled here.
* the `with`-statements of `__gzip_read` and `load_file` are modelled by
  returning, next to the result, the trace of open/close events that the
  Python context managers produce on that execution path.
* `re.findall(r"(\w[\w']*\w|\w)", text)` from `_parse_into_words` becomes
  the explicit left-to-right scan `scanTokensGo`, parametrized by the
  word-character class `w` (Python's `\w`); `pyWordChar` instantiates `w`
  for the ASCII characters, where Python's `\w` is exactly
  `[a-zA-Z0-9_]`.
-/

/-! ## Python error classes raised by the module -/

/-- Error classes that the embedded fragment of `spellchecker.utils` can
raise.  Error messages are elided from the model; only the class matters
to the specification. -/
inductive PyError where
  | typeError
  | unicodeDecodeError
  | lookupError
  | fileNotFound
  | badGzipFile
deriving DecidableEq, Repr

/-! ## UTF-8 codec (used by `bytes.decode` and by text-mode file I/O) -/

/-- State of the strict UTF-8 decoder while inside a multi-byte sequence:
`need` continuation bytes are still required, `acc` holds the code-point
bits read so far, and the next byte must lie in `[lo, hi]` (the narrowed
first-continuation ranges rule out overlong forms and surrogates, as
Python's strict UTF-8 codec does). -/
structure Utf8Need where
  need : Nat
  acc : Nat
  lo : Nat
  hi : Nat
deriving DecidableEq, Repr

/-- Classify a leading UTF-8 byte: an ASCII character, the start of a
multi-byte sequence, or an invalid leading byte. -/
def utf8Start (b : Nat) : Option (Char ⊕ Utf8Need) :=
  if b < 0x80 then some (Sum.inl (Char.ofNat b))
  else if 0xC2 ≤ b ∧ b ≤ 0xDF then some (Sum.inr ⟨1, b - 0xC0, 0x80, 0xBF⟩)
  else if b = 0xE0 then some (Sum.inr ⟨2, 0, 0xA0, 0xBF⟩)
  else if 0xE1 ≤ b ∧ b ≤ 0xEC then some (Sum.inr ⟨2, b - 0xE0, 0x80, 0xBF⟩)
  else if b = 0xED then some (Sum.inr ⟨2, 13, 0x80, 0x9F⟩)
  else if 0xEE ≤ b ∧ b ≤ 0xEF then some (Sum.inr ⟨2, b - 0xE0, 0x80, 0xBF⟩)
  else if b = 0xF0 then some (Sum.inr ⟨3, 0, 0x90, 0xBF⟩)
  else if 0xF1 ≤ b ∧ b ≤ 0xF3 then some (Sum.inr ⟨3, b - 0xF0, 0x80, 0xBF⟩)
  else if b = 0xF4 then some (Sum.inr ⟨3, 4, 0x80, 0x8F⟩)
  else none

/-- Strict UTF-8 decoder over a byte list, one byte per step; `none` for
any malformed input (invalid lead byte, bad continuation byte, overlong
form, surrogate, or truncated sequence), like Python's strict `decode`. -/
def utf8DecodeAux : Option Utf8Need → List Nat → Option (List Char)
  | none, [] => some []
  | some _, [] => none
  | none, b :: rest =>
    match utf8Start b with
    | none => none
    | some (Sum.inl c) => (utf8DecodeAux none rest).map (c :: ·)
    | some (Sum.inr st) => utf8DecodeAux (some st) rest
  | some st, b :: rest =>
    if st.lo ≤ b ∧ b ≤ st.hi then
      if st.need = 1 then
        (utf8DecodeAux none rest).map (Char.ofNat (st.acc * 64 + (b - 0x80)) :: ·)
      else
        utf8DecodeAux (some ⟨st.need - 1, st.acc * 64 + (b - 0x80), 0x80, 0xBF⟩) rest
    else none

/-- Decode a byte list as UTF-8 text, strictly. -/
def utf8Decode (bs : List Nat) : Option String :=
  (utf8DecodeAux none bs).map fun cs => ⟨cs⟩

/-- Standard UTF-8 encoding of one Unicode scalar value. -/
def utf8EncodeChar (c : Char) : List Nat :=
  let n := c.toNat
  if n < 0x80 then [n]
  else if n < 0x800 then [0xC0 + n / 64, 0x80 + n % 64]
  else if n < 0x10000 then
    [0xE0 + n / 4096, 0x80 + n / 64 % 64, 0x80 + n % 64]
  else
    [0xF0 + n / 262144, 0x80 + n / 4096 % 64, 0x80 + n / 64 % 64, 0x80 + n % 64]

/-- UTF-8 encoding of a character list. -/
def utf8EncodeChars : List Char → List Nat
  | [] => []
  | c :: cs => utf8EncodeChar c ++ utf8EncodeChars cs

/-- UTF-8 encoding of a string. -/
def utf8Encode (s : String) : List Nat := utf8EncodeChars s.data

/-- Recognize the spellings of the UTF-8 codec name accepted by the model
(the repository always passes a UTF-8 spelling). -/
def isUtf8Name (e : String) : Bool :=
  let l : List Char := e.data.map Char.toLower
  l = "utf-8".data ∨ l = "utf8".data ∨ l = "utf_8".data

/-- Model of `bytes.decode(encoding)`: the UTF-8 codec is implemented in
full; any other codec name is modelled as a codec lookup failure (the
module and the claims only exercise UTF-8). -/
def decodeBytes (encoding : String) (bs : List Nat) : Except PyError String :=
  if isUtf8Name encoding then
    match utf8Decode bs with
    | some s => Except.ok s
    | none => Except.error PyError.unicodeDecodeError
  else Except.error PyError.lookupError

/-- Model of `str.encode`-style encoding performed by text-mode file
writes: full UTF-8, lookup failure for other codec names. -/
def encodeText (encoding : String) (s : String) : Except PyError (List Nat) :=
  if isUtf8Name encoding then Except.ok (utf8Encode s)
  else Except.error PyError.lookupError

/-! ## `ensure_unicode` -/

/-- Python values that can reach `ensure_unicode`'s dynamic `isinstance`
checks: single text/byte values and the aggregate built-ins. -/
inductive PyValue where
  | bytes (bs : List Nat)
  | str (s : String)
  | list (xs : List PyValue)
  | tuple (xs : List PyValue)
  | set (xs : List PyValue)
  | dict (xs : List (PyValue × PyValue))
  | pyInt (n : Int)
  | pyBool (b : Bool)
  | pyNone
deriving Repr

/-- Whether a value is a `bytes` object. -/
def PyValue.isBytesVal : PyValue → Bool
  | .bytes _ => true
  | _ => false

/-- Whether a value is a `list` object. -/
def PyValue.isListVal : PyValue → Bool
  | .list _ => true
  | _ => false

/-- Embedding of `ensure_unicode(value, encoding)` from
`spellchecker/utils.py`:
`if isinstance(value, bytes): return value.decode(encoding)`;
`elif isinstance(value, list): raise TypeError(...)`;
`return value`. -/
def ensure_unicode (value : PyValue) (encoding : String) : Except PyError PyValue :=
  match value with
  | .bytes bs => (decodeBytes encoding bs).map PyValue.str
  | .list _ => Except.error PyError.typeError
  | v => Except.ok v

example : ensure_unicode (.bytes [0x63, 0x61, 0x66, 0xC3, 0xA9]) "utf-8" =
    Except.ok (.str "café") := rfl

example : ensure_unicode (.bytes [0xFF]) "utf-8" =
    Except.error PyError.unicodeDecodeError := rfl

/-! ## The codec layer: `__gzip_read`, `load_file`, `write_file`

The file system is a partial map from path to `FileContent`.  A gzip
file is modelled as a container around its decompressed payload bytes;
`gzip.open` on content that is not a gzip container fails while reading
(`BadGzipFile`), and a plain text read of a gzip container is modelled as
a decode failure (a gzip container starts with the magic bytes
`0x1F 0x8B`, and `0x8B` is never valid UTF-8 at that position).  Neither
mismatched access happens in the repository.  Each read operation also
returns the trace of handle open/close events its `with` blocks produce
on that execution path, so that the scoped-acquisition guarantee can be
stated. -/

/-- On-disk content of one file. -/
inductive FileContent where
  | rawBytes (bs : List Nat)
  | gzBytes (payload : List Nat)
deriving DecidableEq, Repr

/-- A file-system state: which paths exist and what they hold. -/
def Disk : Type := String → Option FileContent

/-- Stream-handle events emitted while a read executes. -/
inductive FsEvent where
  | opened (path : String)
  | closed (path : String)
deriving DecidableEq, Repr

/-- Embedding of `PathOrStr = typing.Union[Path, str]`. -/
inductive PathOrStr where
  | path (s : String)
  | str (s : String)
deriving DecidableEq, Repr

/-- `str(p)` for a `Path`, identity for a `str` (`load_file` performs
`filename = str(filename)` on `Path` input). -/
def PathOrStr.toStr : PathOrStr → String
  | .path s => s
  | .str s => s

/-- Model of the Python slice `s[-3:]`: the last three characters, or the
whole string when it is shorter. -/
def lastThree (s : String) : String := ⟨s.data.drop (s.data.length - 3)⟩

/-- Model of `str.lower()` (ASCII case folding; no character outside
ASCII lowercases onto `.`, `g` or `z`, the only characters the module
compares against). -/
def strLower (s : String) : String := ⟨s.data.map Char.toLower⟩

/-- Universal-newline translation performed by Python text-mode reads
with the default `newline=None`: each `"\r\n"` pair and each lone `"\r"`
becomes `"\n"`. -/
def univNewlines : List Char → List Char
  | [] => []
  | [c] => if c = '\r' then ['\n'] else [c]
  | c :: c2 :: rest =>
    if c = '\r' then
      if c2 = '\n' then '\n' :: univNewlines rest
      else '\n' :: univNewlines (c2 :: rest)
    else c :: univNewlines (c2 :: rest)

/-- Universal-newline translation on a string. -/
def univNewlinesStr (s : String) : String := ⟨univNewlines s.data⟩

/-- A Python text-mode `read()` of an entire byte stream: decode with the
given encoding, then apply the `TextIOWrapper`'s universal-newline
translation (`newline=None`, the default used by both `open` and
`gzip.open(..., "rt")` in the module). -/
def textModeRead (encoding : String) (bs : List Nat) : Except PyError String :=
  (decodeBytes encoding bs).map univNewlinesStr

/-- Embedding of `__gzip_read(filename, mode="rt", encoding=encoding)` as
called by `load_file`: `with gzip.open(filename, mode="rt",
encoding=encoding) as fobj: yield fobj.read()`.  The `"rt"` read is a
text-mode read: decode the payload, then apply universal-newline
translation.  Returns the read result together with the open/close trace
of the `with` block: a missing file fails at `open` (no handle is ever
acquired), while a bad container or a decode failure raises during
`read`, after the handle is open, and the `with` block still closes
it. -/
def gzip_read (filename : String) (encoding : String) (disk : Disk) :
    Except PyError String × List FsEvent :=
  match disk filename with
  | none => (Except.error PyError.fileNotFound, [])
  | some (.rawBytes _) =>
    (Except.error PyError.badGzipFile, [.opened filename, .closed filename])
  | some (.gzBytes payload) =>
    (textModeRead encoding payload, [.opened filename, .closed filename])

/-- Embedding of the plain branch of `load_file`:
`with open(filename, encoding=encoding) as fobj: yield fobj.read()` — a
text-mode read (decode, then universal-newline translation) — with the
same open/close trace convention as `gzip_read`. -/
def plain_open_read (filename : String) (encoding : String) (disk : Disk) :
    Except PyError String × List FsEvent :=
  match disk filename with
  | none => (Except.error PyError.fileNotFound, [])
  | some (.rawBytes bs) =>
    (textModeRead encoding bs, [.opened filename, .closed filename])
  | some (.gzBytes _) =>
    (Except.error PyError.unicodeDecodeError, [.opened filename, .closed filename])

/-- Embedding of `load_file(filename, encoding)`: convert `Path` input
with `str`, then dispatch on `filename[-3:].lower() == ".gz"` to the gzip
or the plain read. -/
def load_file (filename : PathOrStr) (encoding : String) (disk : Disk) :
    Except PyError String × List FsEvent :=
  let fn := filename.toStr
  if strLower (lastThree fn) = ".gz" then gzip_read fn encoding disk
  else plain_open_read fn encoding disk

/-- Embedding of `write_file(filepath, encoding, gzipped, data)`.  The
gzip branch is `gzip.open(filepath, "wt")` — no encoding argument, so the
text layer uses the interpreter default (modelled as UTF-8) and the
`encoding` parameter is not consulted.  The plain branch is
`open(filepath, "w", encoding=encoding)`.  Text-mode writes translate
each `"\n"` to `os.linesep`, the identity on the POSIX systems modelled
here, so the written bytes are the plain encoding of the text.  The
result is the updated file-system state. -/
def write_file (filepath : String) (encoding : String) (gzipped : Bool)
    (data : String) (disk : Disk) : Except PyError Disk :=
  if gzipped then
    Except.ok fun q => if q = filepath then some (.gzBytes (utf8Encode data)) else disk q
  else
    match encodeText encoding data with
    | Except.ok bs =>
      Except.ok fun q => if q = filepath then some (.rawBytes bs) else disk q
    | Except.error err => Except.error err

/-- A trace is balanced when its open and close events follow a stack
discipline and no handle is left open at the end. -/
def opensMatched : List FsEvent → List String → Bool
  | [], [] => true
  | [], _ :: _ => false
  | .opened p :: rest, stk => opensMatched rest (p :: stk)
  | .closed _ :: _, [] => false
  | .closed p :: rest, q :: stk => p == q && opensMatched rest stk

/-- Every opened handle in the trace is closed again, in order. -/
def balancedTrace (tr : List FsEvent) : Bool := opensMatched tr []

/-! ## The tokenizer: `_parse_into_words` -/

/-- The apostrophe character, `U+0027`, the one the pattern
`(\w[\w']*\w|\w)` treats specially. -/
def apostropheChar : Char := Char.ofNat 39

/-- Characters the inner `[\w']` class of the pattern accepts, for a
given word-character class `w`. -/
def wordRunChar (w : Char → Bool) (c : Char) : Bool := w c || c == apostropheChar

/-- One left-to-right pass of `re.findall(r"(\w[\w']*\w|\w)", text)`,
parametrized by the word-character class `w` (Python's `\w`).  At a
word character `c`, the greedy first alternative `\w[\w']*\w` consumes
the maximal following run of `[\w']` characters and then backtracks until
the match ends on a word character; when no such two-character-or-longer
match exists the second alternative matches `c` alone.  At a non-word
character no alternative can start, and the scan advances one character.
`fuel` bounds the number of scan steps; every step consumes at least one
character, so `fuel = length` (as supplied by `scanTokens`) is always
sufficient. -/
def scanTokensGo (w : Char → Bool) : Nat → List Char → List (List Char)
  | _, [] => []
  | 0, _ :: _ => []
  | fuel + 1, c :: rest =>
    if w c then
      let run := rest.takeWhile (wordRunChar w)
      let p := (run.reverse.dropWhile fun x => !w x).reverse
      if p.isEmpty then [c] :: scanTokensGo w fuel rest
      else (c :: p) :: scanTokensGo w fuel (rest.drop p.length)
    else scanTokensGo w fuel rest

/-- All matches of `(\w[\w']*\w|\w)` in a character list, in order. -/
def scanTokens (w : Char → Bool) (l : List Char) : List (List Char) :=
  scanTokensGo w l.length l

/-- Embedding of `_parse_into_words(text)` generalized over the
word-character class. -/
def parse_into_words_with (w : Char → Bool) (text : String) : List String :=
  (scanTokens w text.data).map fun l => ⟨l⟩

/-- Python's `\w` restricted to ASCII, where it is exactly
`[a-zA-Z0-9_]` (letters, digits, underscore). -/
def pyWordChar (c : Char) : Bool := c.isAlphanum || c == '_'

/-- Python's `\s` restricted to ASCII: space, tab, newline, carriage
return, vertical tab, form feed. -/
def pySpaceChar (c : Char) : Bool :=
  c == ' ' || c == '\t' || c == '\n' || c == '\r' ||
    c == Char.ofNat 11 || c == Char.ofNat 12

/-- Embedding of `_parse_into_words(text)`:
`re.findall(r"(\w[\w']*\w|\w)", text)`. -/
def parse_into_words (text : String) : List String :=
  parse_into_words_with pyWordChar text

example : parse_into_words "isn't that nice?" = ["isn't", "that", "nice"] := by decide

/-- Modelled from the spec: "the substrings obtained by splitting T on
whitespace boundaries, in order" — the maximal runs of non-whitespace
characters, in order, with the whitespace class `sp`.  `acc` holds the
characters of the current run, reversed. -/
def specSplitWsAux (sp : Char → Bool) : List Char → List Char → List (List Char)
  | acc, [] => if acc.isEmpty then [] else [acc.reverse]
  | acc, c :: rest =>
    if sp c then
      if acc.isEmpty then specSplitWsAux sp [] rest
      else acc.reverse :: specSplitWsAux sp [] rest
    else specSplitWsAux sp (c :: acc) rest

/-- Modelled from the spec: splitting a text on whitespace boundaries. -/
def specWhitespaceSplit (sp : Char → Bool) (text : String) : List String :=
  (specSplitWsAux sp [] text.data).map fun l => ⟨l⟩

example : specWhitespaceSplit pySpaceChar "  foo bar  baz " = ["foo", "bar", "baz"] := by decide

/-! ## UTF-8 round trip -/

theorem utf8Start_ascii (b : Nat) (h : b < 0x80) :
    utf8Start b = some (Sum.inl (Char.ofNat b)) := by
  unfold utf8Start; rw [if_pos h]

theorem utf8Start_two (b : Nat) (h1 : 0xC2 ≤ b) (h2 : b ≤ 0xDF) :
    utf8Start b = some (Sum.inr ⟨1, b - 0xC0, 0x80, 0xBF⟩) := by
  unfold utf8Start
  rw [if_neg (by omega), if_pos ⟨h1, h2⟩]

theorem utf8Start_e0 : utf8Start 0xE0 = some (Sum.inr ⟨2, 0, 0xA0, 0xBF⟩) := rfl

theorem utf8Start_three_mid (b : Nat) (h1 : 0xE1 ≤ b) (h2 : b ≤ 0xEC) :
    utf8Start b = some (Sum.inr ⟨2, b - 0xE0, 0x80, 0xBF⟩) := by
  unfold utf8Start
  rw [if_neg (by omega), if_neg (by omega), if_neg (by omega), if_pos ⟨h1, h2⟩]

theorem utf8Start_ed : utf8Start 0xED = some (Sum.inr ⟨2, 13, 0x80, 0x9F⟩) := rfl

theorem utf8Start_three_hi (b : Nat) (h1 : 0xEE ≤ b) (h2 : b ≤ 0xEF) :
    utf8Start b = some (Sum.inr ⟨2, b - 0xE0, 0x80, 0xBF⟩) := by
  unfold utf8Start
  rw [if_neg (by omega), if_neg (by omega), if_neg (by omega), if_neg (by omega),
    if_neg (by omega), if_pos ⟨h1, h2⟩]

theorem utf8Start_f0 : utf8Start 0xF0 = some (Sum.inr ⟨3, 0, 0x90, 0xBF⟩) := rfl

theorem utf8Start_four_mid (b : Nat) (h1 : 0xF1 ≤ b) (h2 : b ≤ 0xF3) :
    utf8Start b = some (Sum.inr ⟨3, b - 0xF0, 0x80, 0xBF⟩) := by
  unfold utf8Start
  rw [if_neg (by omega), if_neg (by omega), if_neg (by omega), if_neg (by omega),
    if_neg (by omega), if_neg (by omega), if_neg (by omega), if_pos ⟨h1, h2⟩]

theorem utf8Start_f4 : utf8Start 0xF4 = some (Sum.inr ⟨3, 4, 0x80, 0x8F⟩) := rfl

theorem utf8DecodeAux_cons_inl (b : Nat) (c : Char) (l : List Nat)
    (h : utf8Start b = some (Sum.inl c)) :
    utf8DecodeAux none (b :: l) = (utf8DecodeAux none l).map (c :: ·) := by
  simp only [utf8DecodeAux, h]

theorem utf8DecodeAux_cons_inr (b : Nat) (st : Utf8Need) (l : List Nat)
    (h : utf8Start b = some (Sum.inr st)) :
    utf8DecodeAux none (b :: l) = utf8DecodeAux (some st) l := by
  simp only [utf8DecodeAux, h]

theorem utf8DecodeAux_cont_last (a lo hi b : Nat) (l : List Nat)
    (h1 : lo ≤ b) (h2 : b ≤ hi) :
    utf8DecodeAux (some ⟨1, a, lo, hi⟩) (b :: l) =
      (utf8DecodeAux none l).map (Char.ofNat (a * 64 + (b - 0x80)) :: ·) := by
  simp only [utf8DecodeAux]
  rw [if_pos ⟨h1, h2⟩]
  simp

theorem utf8DecodeAux_cont_step (k a lo hi b : Nat) (l : List Nat)
    (h1 : lo ≤ b) (h2 : b ≤ hi) (h3 : k ≠ 1) :
    utf8DecodeAux (some ⟨k, a, lo, hi⟩) (b :: l) =
      utf8DecodeAux (some ⟨k - 1, a * 64 + (b - 0x80), 0x80, 0xBF⟩) l := by
  simp only [utf8DecodeAux]
  rw [if_pos ⟨h1, h2⟩, if_neg h3]

theorem utf8DecodeAux_encodeChar (c : Char) (rest : List Nat) :
    utf8DecodeAux none (utf8EncodeChar c ++ rest) =
      (utf8DecodeAux none rest).map (c :: ·) := by
  have hv : c.toNat < 0xD800 ∨ (0xDFFF < c.toNat ∧ c.toNat < 0x110000) := c.valid
  have hofn : Char.ofNat c.toNat = c := Char.ofNat_toNat c
  obtain ⟨n, hn⟩ : ∃ n, c.toNat = n := ⟨_, rfl⟩
  rw [hn] at hv hofn
  unfold utf8EncodeChar
  rw [hn]
  rcases Nat.lt_or_ge n 0x80 with h1 | h1
  · rw [if_pos h1, List.cons_append, List.nil_append,
      utf8DecodeAux_cons_inl n (Char.ofNat n) _ (utf8Start_ascii n h1), hofn]
  rcases Nat.lt_or_ge n 0x800 with h2 | h2
  · rw [if_neg (by omega), if_pos h2, List.cons_append, List.cons_append,
      List.nil_append,
      utf8DecodeAux_cons_inr _ _ _ (utf8Start_two _ (by omega) (by omega)),
      utf8DecodeAux_cont_last _ _ _ _ _ (by omega) (by omega)]
    have hacc : (0xC0 + n / 64 - 0xC0) * 64 + (0x80 + n % 64 - 0x80) = n := by omega
    rw [hacc, hofn]
  rcases Nat.lt_or_ge n 0x10000 with h3 | h3
  · rw [if_neg (by omega), if_neg (by omega), if_pos h3, List.cons_append,
      List.cons_append, List.cons_append, List.nil_append]
    have hk : n / 4096 = 0 ∨ (1 ≤ n / 4096 ∧ n / 4096 ≤ 12) ∨ n / 4096 = 13 ∨
        (14 ≤ n / 4096 ∧ n / 4096 ≤ 15) := by omega
    rcases hk with hk | hk | hk | hk
    · rw [show 0xE0 + n / 4096 = 0xE0 by omega,
        utf8DecodeAux_cons_inr _ _ _ utf8Start_e0,
        utf8DecodeAux_cont_step _ _ _ _ _ _ (by omega) (by omega) (by omega),
        show (2 : Nat) - 1 = 1 from rfl,
        utf8DecodeAux_cont_last _ _ _ _ _ (by omega) (by omega)]
      have hacc : (0 * 64 + (0x80 + n / 64 % 64 - 0x80)) * 64 +
          (0x80 + n % 64 - 0x80) = n := by omega
      rw [hacc, hofn]
    · rw [utf8DecodeAux_cons_inr _ _ _ (utf8Start_three_mid _ (by omega) (by omega)),
        utf8DecodeAux_cont_step _ _ _ _ _ _ (by omega) (by omega) (by omega),
        show (2 : Nat) - 1 = 1 from rfl,
        utf8DecodeAux_cont_last _ _ _ _ _ (by omega) (by omega)]
      have hacc : ((0xE0 + n / 4096 - 0xE0) * 64 + (0x80 + n / 64 % 64 - 0x80)) * 64 +
          (0x80 + n % 64 - 0x80) = n := by omega
      rw [hacc, hofn]
    · rw [show 0xE0 + n / 4096 = 0xED by omega,
        utf8DecodeAux_cons_inr _ _ _ utf8Start_ed,
        utf8DecodeAux_cont_step _ _ _ _ _ _ (by omega) (by omega) (by omega),
        show (2 : Nat) - 1 = 1 from rfl,
        utf8DecodeAux_cont_last _ _ _ _ _ (by omega) (by omega)]
      have hacc : (13 * 64 + (0x80 + n / 64 % 64 - 0x80)) * 64 +
          (0x80 + n % 64 - 0x80) = n := by omega
      rw [hacc, hofn]
    · rw [utf8DecodeAux_cons_inr _ _ _ (utf8Start_three_hi _ (by omega) (by omega)),
        utf8DecodeAux_cont_step _ _ _ _ _ _ (by omega) (by omega) (by omega),
        show (2 : Nat) - 1 = 1 from rfl,
        utf8DecodeAux_cont_last _ _ _ _ _ (by omega) (by omega)]
      have hacc : ((0xE0 + n / 4096 - 0xE0) * 64 + (0x80 + n / 64 % 64 - 0x80)) * 64 +
          (0x80 + n % 64 - 0x80) = n := by omega
      rw [hacc, hofn]
  · rw [if_neg (by omega), if_neg (by omega), if_neg (by omega), List.cons_append,
      List.cons_append, List.cons_append, List.cons_append, List.nil_append]
    have hk : n / 262144 = 0 ∨ (1 ≤ n / 262144 ∧ n / 262144 ≤ 3) ∨ n / 262144 = 4 := by
      omega
    rcases hk with hk | hk | hk
    · rw [show 0xF0 + n / 262144 = 0xF0 by omega,
        utf8DecodeAux_cons_inr _ _ _ utf8Start_f0,
        utf8DecodeAux_cont_step _ _ _ _ _ _ (by omega) (by omega) (by omega),
        utf8DecodeAux_cont_step _ _ _ _ _ _ (by omega) (by omega) (by omega),
        show (3 : Nat) - 1 - 1 = 1 from rfl,
        utf8DecodeAux_cont_last _ _ _ _ _ (by omega) (by omega)]
      have hacc : ((0 * 64 + (0x80 + n / 4096 % 64 - 0x80)) * 64 +
          (0x80 + n / 64 % 64 - 0x80)) * 64 + (0x80 + n % 64 - 0x80) = n := by omega
      rw [hacc, hofn]
    · rw [utf8DecodeAux_cons_inr _ _ _ (utf8Start_four_mid _ (by omega) (by omega)),
        utf8DecodeAux_cont_step _ _ _ _ _ _ (by omega) (by omega) (by omega),
        utf8DecodeAux_cont_step _ _ _ _ _ _ (by omega) (by omega) (by omega),
        show (3 : Nat) - 1 - 1 = 1 from rfl,
        utf8DecodeAux_cont_last _ _ _ _ _ (by omega) (by omega)]
      have hacc : (((0xF0 + n / 262144 - 0xF0) * 64 + (0x80 + n / 4096 % 64 - 0x80)) * 64 +
          (0x80 + n / 64 % 64 - 0x80)) * 64 + (0x80 + n % 64 - 0x80) = n := by omega
      rw [hacc, hofn]
    · rw [show 0xF0 + n / 262144 = 0xF4 by omega,
        utf8DecodeAux_cons_inr _ _ _ utf8Start_f4,
        utf8DecodeAux_cont_step _ _ _ _ _ _ (by omega) (by omega) (by omega),
        utf8DecodeAux_cont_step _ _ _ _ _ _ (by omega) (by omega) (by omega),
        show (3 : Nat) - 1 - 1 = 1 from rfl,
        utf8DecodeAux_cont_last _ _ _ _ _ (by omega) (by omega)]
      have hacc : ((4 * 64 + (0x80 + n / 4096 % 64 - 0x80)) * 64 +
          (0x80 + n / 64 % 64 - 0x80)) * 64 + (0x80 + n % 64 - 0x80) = n := by omega
      rw [hacc, hofn]

theorem utf8DecodeAux_encodeChars (cs : List Char) :
    utf8DecodeAux none (utf8EncodeChars cs) = some cs := by
  induction cs with
  | nil => rfl
  | cons c cs ih => rw [utf8EncodeChars, utf8DecodeAux_encodeChar, ih]; rfl

/-- Decoding inverts encoding: the UTF-8 codec round-trips every text. -/
theorem utf8Decode_encode (s : String) : utf8Decode (utf8Encode s) = some s := by
  rw [utf8Decode, utf8Encode, utf8DecodeAux_encodeChars]; rfl

/-- Reading back UTF-8 bytes written for a text recovers the text. -/
theorem decodeBytes_utf8_encode (s : String) :
    decodeBytes "utf-8" (utf8Encode s) = Except.ok s := by
  unfold decodeBytes
  rw [utf8Decode_encode]
  rfl

/-! ## Theorems for the claims -/

/-- C1 counterexample: a tuple of two strings is a sequence/collection of
multiple items and is not a text or bytes value, yet `ensure_unicode`
returns it unchanged instead of raising a `TypeError`-class shape error —
the guard in the source tests `isinstance(value, list)` only. -/
theorem ensure_unicode_tuple_passes_through :
    ensure_unicode (.tuple [.str "a", .str "b"]) "utf-8" =
      Except.ok (.tuple [.str "a", .str "b"]) := rfl

/-- C1 (amended): for every input value that is a list, `ensure_unicode`
raises a `TypeError`-class shape error rather than returning a result;
aggregates of other types are not guarded. -/
theorem ensure_unicode_list_raises (xs : List PyValue) (enc : String) :
    ensure_unicode (.list xs) enc = Except.error PyError.typeError := rfl

/-- C2: for every path, every pair of encoding names and every text, the
two compressed (`gzipped = True`) writes produce identical file contents:
the gzip branch of `write_file` never consults its encoding argument. -/
theorem gzip_write_ignores_encoding (p e1 e2 : String) (d : String) (disk : Disk) :
    write_file p e1 true d disk = write_file p e2 true d disk := rfl

theorem univNewlines_eq_self :
    ∀ l : List Char, (∀ c ∈ l, c ≠ '\r') → univNewlines l = l := by
  intro l
  induction l with
  | nil => intro _; rfl
  | cons c rest ih =>
    intro h
    cases rest with
    | nil => rw [univNewlines, if_neg (h c (by simp))]
    | cons c2 rest2 =>
      rw [univNewlines, if_neg (h c (by simp)),
        ih fun x hx => h x (List.mem_cons_of_mem _ hx)]

/-- A text-mode read of the UTF-8 bytes of a carriage-return-free text
recovers the text: decoding inverts encoding and the universal-newline
translation has nothing to translate. -/
theorem textModeRead_utf8_encode_no_cr (s : String) (h : ∀ c ∈ s.data, c ≠ '\r') :
    textModeRead "utf-8" (utf8Encode s) = Except.ok s := by
  unfold textModeRead
  rw [decodeBytes_utf8_encode]
  show Except.ok (univNewlinesStr s) = Except.ok s
  rw [univNewlinesStr, univNewlines_eq_self s.data h]

/-- C3 counterexample: the round trip fails for a text containing a
carriage return.  Writing `"a\rb"` and reading it back returns
`"a\nb"` in both storage modes — the text-mode read applies
universal-newline translation — so "for every text `D` ... yields `D`
unchanged" is false at `D = "a\rb"` (the write itself succeeds and
stores the exact bytes of `"a\rb"`). -/
theorem write_load_roundtrip_cr_counterexample :
    (write_file "w.gz" "utf-8" true "a\rb" fun _ => none).map
        (fun d => (load_file (.str "w.gz") "utf-8" d).1) =
      Except.ok (Except.ok "a\nb")
    ∧ (write_file "w.txt" "utf-8" false "a\rb" fun _ => none).map
        (fun d => (load_file (.str "w.txt") "utf-8" d).1) =
      Except.ok (Except.ok "a\nb")
    ∧ "a\nb" ≠ "a\rb" :=
  ⟨rfl, rfl, by decide⟩

/-- C3 (amended): for every text `D` containing no carriage return,
writing `D` with `write_file` to a `.gz`-suffixed path with the gzipped
flag set and reading that path back with `load_file` yields `D`
unchanged, and writing to a path without the suffix with the flag unset
and reading it back also yields `D` — both storage modes round-trip
(with the module's UTF-8 encoding); for texts with carriage returns the
read returns the universal-newline translation instead. -/
theorem write_load_roundtrip (D : String) (p : String) (disk0 : Disk)
    (hcr : ∀ c ∈ D.data, c ≠ '\r') :
    (strLower (lastThree p) = ".gz" →
      ∀ disk1, write_file p "utf-8" true D disk0 = Except.ok disk1 →
        (load_file (.str p) "utf-8" disk1).1 = Except.ok D)
    ∧ (strLower (lastThree p) ≠ ".gz" →
      ∀ disk1, write_file p "utf-8" false D disk0 = Except.ok disk1 →
        (load_file (.str p) "utf-8" disk1).1 = Except.ok D) := by
  constructor
  · intro hsuf disk1 hw
    rw [show write_file p "utf-8" true D disk0 = Except.ok fun q =>
        if q = p then some (FileContent.gzBytes (utf8Encode D)) else disk0 q
      from rfl] at hw
    injection hw with hw1
    subst hw1
    simp only [load_file, PathOrStr.toStr]
    rw [if_pos hsuf]
    simp [gzip_read, textModeRead_utf8_encode_no_cr D hcr]
  · intro hsuf disk1 hw
    rw [show write_file p "utf-8" false D disk0 = Except.ok fun q =>
        if q = p then some (FileContent.rawBytes (utf8Encode D)) else disk0 q
      from rfl] at hw
    injection hw with hw1
    subst hw1
    simp only [load_file, PathOrStr.toStr]
    rw [if_neg hsuf]
    simp [plain_open_read, textModeRead_utf8_encode_no_cr D hcr]

/-- C3 witness: a concrete carriage-return-free text containing a
non-ASCII character round-trips through a `.gz` path and through a plain
path. -/
theorem write_load_roundtrip_witness :
    (load_file (.str "freq.gz") "utf-8" fun q =>
        if q = "freq.gz" then some (.gzBytes (utf8Encode "café words")) else none).1 =
      Except.ok "café words"
    ∧ (load_file (.str "freq.txt") "utf-8" fun q =>
        if q = "freq.txt" then some (.rawBytes (utf8Encode "café words")) else none).1 =
      Except.ok "café words" :=
  ⟨(write_load_roundtrip "café words" "freq.gz" (fun _ => none) (by decide)).1
    (by decide) _ rfl,
   (write_load_roundtrip "café words" "freq.txt" (fun _ => none) (by decide)).2
    (by decide) _ rfl⟩

/-- C4: `load_file` accepts a `Path` object or a string for the same
path interchangeably, and decides compression purely by whether the last
three characters of the path, lowercased, equal `.gz`: in that case the
file content is read as a gzip stream opened in text mode and its entire
payload is read as text with the given encoding, otherwise the entire
raw file bytes are read as text with the given encoding (`textModeRead`:
decode, then the text layer's universal-newline translation). -/
theorem load_file_suffix_dispatch (p : String) (e : String) (disk : Disk)
    (bs : List Nat) :
    load_file (.path p) e disk = load_file (.str p) e disk
    ∧ (strLower (lastThree p) = ".gz" → disk p = some (.gzBytes bs) →
        (load_file (.str p) e disk).1 = textModeRead e bs)
    ∧ (strLower (lastThree p) ≠ ".gz" → disk p = some (.rawBytes bs) →
        (load_file (.str p) e disk).1 = textModeRead e bs) := by
  refine ⟨rfl, fun hs hd => ?_, fun hs hd => ?_⟩
  · simp only [load_file, PathOrStr.toStr]
    rw [if_pos hs]
    simp [gzip_read, hd]
  · simp only [load_file, PathOrStr.toStr]
    rw [if_neg hs]
    simp [plain_open_read, hd]

/-- C4 witness: an uppercase `.GZ` suffix is matched case-insensitively
and the gzip payload is read as text with the given encoding. -/
theorem load_file_suffix_dispatch_witness :
    (load_file (.str "WORDS.GZ") "utf-8" fun q =>
        if q = "WORDS.GZ" then some (.gzBytes [104, 105]) else none).1 =
      textModeRead "utf-8" [104, 105]
    ∧ (load_file (.str "words.txt") "utf-8" fun q =>
        if q = "words.txt" then some (.rawBytes [104, 105]) else none).1 =
      textModeRead "utf-8" [104, 105] :=
  ⟨(load_file_suffix_dispatch "WORDS.GZ" "utf-8" _ [104, 105]).2.1 (by decide) (by decide),
   (load_file_suffix_dispatch "words.txt" "utf-8" _ [104, 105]).2.2 (by decide) (by decide)⟩

/-- C5: `ensure_unicode` decodes bytes input with the given encoding,
propagating decode failures, and is the identity on text input, so the
bytes path and the text path agree: both `b"caf\xc3\xa9"` and `"café"`
map to `"café"` under UTF-8, and invalid byte sequences (here a truncated
two-byte sequence) surface the decode error. -/
theorem ensure_unicode_decodes_and_is_identity :
    (∀ (s : String) (enc : String), ensure_unicode (.str s) enc = Except.ok (.str s))
    ∧ (∀ (bs : List Nat) (enc : String),
        ensure_unicode (.bytes bs) enc = (decodeBytes enc bs).map PyValue.str)
    ∧ ensure_unicode (.bytes [0x63, 0x61, 0x66, 0xC3, 0xA9]) "utf-8" =
        Except.ok (.str "café")
    ∧ ensure_unicode (.str "café") "utf-8" = Except.ok (.str "café")
    ∧ ensure_unicode (.bytes [0x63, 0x61, 0x66, 0xC3]) "utf-8" =
        Except.error PyError.unicodeDecodeError :=
  ⟨fun _ _ => rfl, fun _ _ => rfl, rfl, rfl, rfl⟩

/-- C6: the tokenizer retains internal apostrophes and strips leading and
trailing apostrophes and standalone punctuation; in particular
`_parse_into_words("isn't that nice?")` is exactly
`["isn't", "that", "nice"]`. -/
theorem parse_into_words_apostrophes :
    parse_into_words "isn't that nice?" = ["isn't", "that", "nice"]
    ∧ parse_into_words "'tis Bob's ''x'' y'" = ["tis", "Bob's", "x", "y"] := by
  decide

/-- C9: every execution of `load_file` — for every path, encoding and
file-system state, hence on the normal path and on every failing path
(missing file, non-gzip content behind a `.gz` name, decode failure) —
produces a balanced open/close trace: the stream handle acquired by its
`with` block is closed again on every exit path, and the caller receives
only the fully-read text, never the handle. -/
theorem load_file_closes_handles (filename : PathOrStr) (encoding : String)
    (disk : Disk) : balancedTrace (load_file filename encoding disk).2 = true := by
  unfold load_file
  by_cases h : strLower (lastThree filename.toStr) = ".gz" <;>
    simp only [h, if_true, if_false, reduceIte, gzip_read, plain_open_read] <;>
    rcases disk filename.toStr with _ | bs | payload <;>
    simp [balancedTrace, opensMatched]

/-- C10: every input value that is neither a bytes object nor a list —
including aggregates such as tuples, sets and dicts — is returned
unchanged by `ensure_unicode`, with no error raised; only the list check
triggers the shape-error branch. -/
theorem ensure_unicode_identity_on_non_bytes_non_list (v : PyValue) (enc : String)
    (hb : v.isBytesVal = false) (hl : v.isListVal = false) :
    ensure_unicode v enc = Except.ok v := by
  cases v <;> simp_all [ensure_unicode, PyValue.isBytesVal, PyValue.isListVal]

/-- C10 witness: a set, a dict and `None` all pass through unchanged. -/
theorem ensure_unicode_identity_witness :
    ensure_unicode (.set [.pyInt 1, .pyInt 2]) "utf-8" =
      Except.ok (.set [.pyInt 1, .pyInt 2])
    ∧ ensure_unicode (.dict [(.str "k", .pyInt 1)]) "utf-8" =
      Except.ok (.dict [(.str "k", .pyInt 1)])
    ∧ ensure_unicode .pyNone "utf-8" = Except.ok .pyNone :=
  ⟨ensure_unicode_identity_on_non_bytes_non_list _ _ rfl rfl,
   ensure_unicode_identity_on_non_bytes_non_list _ _ rfl rfl,
   ensure_unicode_identity_on_non_bytes_non_list _ _ rfl rfl⟩


/-! ## Tokenizer lemmas -/

theorem takeWhile_eq_of_mem_eq {α : Type} {p q : α → Bool} :
    ∀ l : List α, (∀ x ∈ l, p x = q x) → l.takeWhile p = l.takeWhile q := by
  intro l
  induction l with
  | nil => intro _; rfl
  | cons a l ih =>
    intro h
    rw [List.takeWhile_cons, List.takeWhile_cons, h a (by simp),
      ih fun x hx => h x (List.mem_cons_of_mem _ hx)]

theorem drop_length_takeWhile {α : Type} (p : α → Bool) :
    ∀ l : List α, l.drop (l.takeWhile p).length = l.dropWhile p := by
  intro l
  induction l with
  | nil => rfl
  | cons a l ih =>
    rw [List.takeWhile_cons, List.dropWhile_cons]
    cases hp : p a <;> simp [ih]

theorem dropWhile_head_false {α : Type} (p : α → Bool) :
    ∀ (l : List α) (x : α) (xs : List α), l.dropWhile p = x :: xs → p x = false := by
  intro l
  induction l with
  | nil => intro x xs h; cases h
  | cons a l ih =>
    intro x xs h
    rw [List.dropWhile_cons] at h
    by_cases hp : p a = true
    · rw [if_pos hp] at h
      exact ih x xs h
    · rw [if_neg hp] at h
      cases h
      simpa using hp

theorem dropWhile_eq_self_of_all {α : Type} (p : α → Bool) (l : List α)
    (h : ∀ x ∈ l, p x = false) : l.dropWhile p = l := by
  cases l with
  | nil => rfl
  | cons a l => rw [List.dropWhile_cons, h a (by simp)]; simp

theorem specSplitWsAux_accum (sp : Char → Bool) :
    ∀ (run rest acc : List Char), (∀ x ∈ run, sp x = false) →
      specSplitWsAux sp acc (run ++ rest) = specSplitWsAux sp (run.reverse ++ acc) rest := by
  intro run
  induction run with
  | nil => intro rest acc _; simp
  | cons c run ih =>
    intro rest acc h
    rw [List.cons_append]
    rw [specSplitWsAux, h c (by simp)]
    simp only [Bool.false_eq_true, if_false]
    rw [ih rest (c :: acc) fun x hx => h x (List.mem_cons_of_mem _ hx)]
    simp [List.append_assoc]

/-- The per-character hypothesis used by the whitespace-split claims: a
text with no punctuation — every character is either a word character
that is not whitespace, or a whitespace character that is not a word
character (an apostrophe is punctuation, so neither case covers it). -/
def noPunct (w sp : Char → Bool) (l : List Char) : Prop :=
  ∀ c ∈ l, (w c = true ∧ sp c = false) ∨ (sp c = true ∧ w c = false ∧ c ≠ apostropheChar)

theorem scanTokensGo_eq_split (w sp : Char → Bool) :
    ∀ (fuel : Nat) (l : List Char), l.length ≤ fuel → noPunct w sp l →
      scanTokensGo w fuel l = specSplitWsAux sp [] l := by
  intro fuel
  induction fuel with
  | zero =>
    intro l hlen _
    rw [List.length_eq_zero.mp (Nat.le_zero.mp hlen)]
    rfl
  | succ f ih =>
    intro l hlen h
    cases l with
    | nil => rfl
    | cons c rest =>
      have hlenr : rest.length ≤ f := by simpa using hlen
      have hrest : noPunct w sp rest := fun x hx => h x (List.mem_cons_of_mem _ hx)
      rcases h c (by simp) with ⟨hwc, hspc⟩ | ⟨hspc, hwc, _⟩
      · have hrun : rest.takeWhile (wordRunChar w) = rest.takeWhile w := by
          apply takeWhile_eq_of_mem_eq
          intro x hx
          rcases hrest x hx with ⟨hw1, _⟩ | ⟨_, hw1, hap1⟩
          · simp [wordRunChar, hw1]
          · simp [wordRunChar, hw1, beq_eq_false_iff_ne.mpr hap1]
        have htw_w : ∀ x ∈ rest.takeWhile w, w x = true :=
          fun x hx => List.mem_takeWhile_imp hx
        have htw_sp : ∀ x ∈ rest.takeWhile w, sp x = false := by
          intro x hx
          rcases hrest x ((List.takeWhile_prefix w).subset hx) with ⟨_, hs1⟩ | ⟨_, hw1, _⟩
          · exact hs1
          · rw [htw_w x hx] at hw1; cases hw1
        have htrim : ((rest.takeWhile w).reverse.dropWhile fun x => !w x).reverse =
            rest.takeWhile w := by
          rw [dropWhile_eq_self_of_all _ _ fun x hx => by
              rw [List.mem_reverse] at hx
              simp [htw_w x hx],
            List.reverse_reverse]
        rw [scanTokensGo]
        simp only [hwc, if_true, hrun, htrim]
        rw [specSplitWsAux, hspc]
        simp only [Bool.false_eq_true, if_false]
        by_cases hrw : rest.takeWhile w = []
        · simp only [hrw, List.isEmpty_nil, if_true]
          cases hre : rest with
          | nil => simp [scanTokensGo, specSplitWsAux]
          | cons x rest2 =>
            have hwx : w x = false := by
              rw [hre, List.takeWhile_cons] at hrw
              by_cases hx : w x = true
              · rw [if_pos hx] at hrw; cases hrw
              · simpa using hx
            have hspx : sp x = true := by
              rcases hrest x (by rw [hre]; simp) with ⟨hw1, _⟩ | ⟨hs1, _, _⟩
              · rw [hwx] at hw1; cases hw1
              · exact hs1
            rw [← hre, ih rest hlenr hrest, hre]
            simp [specSplitWsAux, hspx]
        · have hne : (rest.takeWhile w).isEmpty = false := by
            cases h' : rest.takeWhile w with
            | nil => exact absurd h' hrw
            | cons d ds => rfl
          simp only [hne, Bool.false_eq_true, if_false]
          rw [drop_length_takeWhile]
          conv_rhs => rw [← List.takeWhile_append_dropWhile w rest]
          rw [specSplitWsAux_accum sp _ _ _ htw_sp]
          cases hdw : rest.dropWhile w with
          | nil =>
            rw [scanTokensGo, specSplitWsAux]
            simp
          | cons x dtl =>
            have hwx : w x = false := dropWhile_head_false w rest x dtl hdw
            have hxrest : x ∈ rest := (List.dropWhile_suffix w).subset (by rw [hdw]; simp)
            have hspx : sp x = true := by
              rcases hrest x hxrest with ⟨hw1, _⟩ | ⟨hs1, _, _⟩
              · rw [hwx] at hw1; cases hw1
              · exact hs1
            have hlend : (x :: dtl).length ≤ f := by
              rw [← hdw]
              exact le_trans (List.dropWhile_suffix w).length_le hlenr
            have hmemd : noPunct w sp (x :: dtl) := fun y hy =>
              hrest y ((List.dropWhile_suffix w).subset (by rw [hdw]; exact hy))
            rw [specSplitWsAux, hspx]
            simp only [if_true]
            have hacc : ((rest.takeWhile w).reverse ++ [c]).isEmpty = false := by simp
            simp only [hacc, Bool.false_eq_true, if_false]
            rw [ih (x :: dtl) hlend hmemd, specSplitWsAux, hspx]
            simp
      · rw [scanTokensGo]
        simp only [hwc, Bool.false_eq_true, if_false]
        rw [ih rest hlenr hrest, specSplitWsAux, hspc]
        simp

/-- C7: for every text `T` with no punctuation — every character is
either a word character or a whitespace character, for any word class `w`
and whitespace class `sp` satisfying the disjointness recorded in
`noPunct` (Python's `\w` and `\s` satisfy it) — the tokenizer returns
exactly the substrings obtained by splitting `T` on whitespace
boundaries, in order. -/
theorem parse_into_words_splits_on_whitespace (w sp : Char → Bool) (t : String)
    (h : noPunct w sp t.data) :
    parse_into_words_with w t = specWhitespaceSplit sp t := by
  unfold parse_into_words_with specWhitespaceSplit scanTokens
  rw [scanTokensGo_eq_split w sp t.data.length t.data (le_refl _) h]

/-- C7 witness: a concrete punctuation-free text, with the ASCII
instances of `\w` and `\s`, tokenizes to its whitespace fields. -/
theorem parse_into_words_splits_witness :
    parse_into_words_with pyWordChar " foo bar_19\nbaz  x " =
      specWhitespaceSplit pySpaceChar " foo bar_19\nbaz  x "
    ∧ specWhitespaceSplit pySpaceChar " foo bar_19\nbaz  x " =
      ["foo", "bar_19", "baz", "x"] :=
  ⟨parse_into_words_splits_on_whitespace pyWordChar pySpaceChar _
    (by unfold noPunct; decide),
   by decide⟩

theorem scanTokensGo_no_word (w : Char → Bool) :
    ∀ (fuel : Nat) (l : List Char), (∀ c ∈ l, w c = false) →
      scanTokensGo w fuel l = [] := by
  intro fuel
  induction fuel with
  | zero => intro l _; cases l <;> rfl
  | succ f ih =>
    intro l h
    cases l with
    | nil => rfl
    | cons c rest =>
      rw [scanTokensGo]
      simp only [h c (by simp), Bool.false_eq_true, if_false]
      exact ih rest fun x hx => h x (List.mem_cons_of_mem _ hx)

/-- C8: every text containing no word characters — so in particular the
empty text and punctuation-only text — tokenizes to the empty sequence
(the tokenizer is a total function: no error is possible). -/
theorem parse_into_words_empty_of_no_word_chars (w : Char → Bool) (t : String)
    (h : ∀ c ∈ t.data, w c = false) : parse_into_words_with w t = [] := by
  unfold parse_into_words_with scanTokens
  rw [scanTokensGo_no_word w t.data.length t.data h]
  rfl

/-- C8 witness: the empty text and a punctuation-only text both yield
`[]` under the tokenizer's actual word class. -/
theorem parse_into_words_empty_witness :
    parse_into_words "" = [] ∧ parse_into_words "?!,. ;:" = [] :=
  ⟨parse_into_words_empty_of_no_word_chars pyWordChar "" (by decide),
   parse_into_words_empty_of_no_word_chars pyWordChar "?!,. ;:" (by decide)⟩
